import Mathlib

/-!
Verification of the quiz-smith MCQ parser (`src/generate_mcqs.py`, `parse_mcqs`)
and the web quiz session engine (`src/app.py`).

The parser is embedded over `List Char`, with Python string primitives
(`str.strip`, `str.split`, `str.startswith`, `in`, `str.rstrip`, `str.upper`)
reimplemented faithfully as total Lean functions. The session engine is embedded
as explicit state passing over an optional session record, parameterized by the
quiz-file loading environment.
-/

namespace QuizSmith

/-! ### Python string primitives over `List Char` -/

/-- Python `str.strip()` whitespace set (ASCII part). -/
def pyIsSpace (c : Char) : Bool :=
  c = ' ' || c = '\t' || c = '\n' || c = '\r' || c = '\x0b' || c = '\x0c'

/-- Python `str.strip()`: drop leading and trailing whitespace. -/
def pyStrip (s : List Char) : List Char :=
  ((s.dropWhile pyIsSpace).reverse.dropWhile pyIsSpace).reverse

/-- Python `pat in s` (substring containment); for empty `s` it holds iff `pat` is empty. -/
def containsSub (pat : List Char) : List Char → Bool
  | [] => pat.isEmpty
  | c :: rest => pat.isPrefixOf (c :: rest) || containsSub pat rest

/-- Locate the first occurrence of `sep` in `s`: returns the part before it and
the part after it. -/
def findSplit (sep : List Char) : List Char → Option (List Char × List Char)
  | [] => none
  | c :: rest =>
    if sep.isPrefixOf (c :: rest) then
      some ([], (c :: rest).drop sep.length)
    else
      match findSplit sep rest with
      | none => none
      | some (pre, post) => some (c :: pre, post)

/-- Fueled worker for Python `str.split(sep)` with non-empty `sep`. -/
def pySplitFuel (sep : List Char) : Nat → List Char → List (List Char)
  | 0, s => [s]
  | fuel + 1, s =>
    match findSplit sep s with
    | none => [s]
    | some (pre, post) => pre :: pySplitFuel sep fuel post

/-- Python `s.split(sep)` for a non-empty separator: the list of parts between
the non-overlapping left-to-right occurrences of `sep`. -/
def pySplit (sep s : List Char) : List (List Char) :=
  pySplitFuel sep s.length s

/-- Number of positions of `s` at which `sep` matches (a marker count used to
bound the parser output length). -/
def countOccPos (sep : List Char) : List Char → Nat
  | [] => 0
  | c :: rest => (if sep.isPrefixOf (c :: rest) then 1 else 0) + countOccPos sep rest

/-- Python `line.rstrip(sep)` for the single character `sep`: drop all trailing
copies of that character. -/
def pyRstripChar (ch : Char) (s : List Char) : List Char :=
  (s.reverse.dropWhile (· = ch)).reverse

/-- Python `str.upper()` (ASCII part), applied characterwise. -/
def pyUpper (s : List Char) : List Char :=
  s.map Char.toUpper

/-- Last element of a list with a default, as Python `parts[-1]` on the
never-empty result of `str.split`. -/
def lastD (l : List (List Char)) : List Char :=
  l.getLastD []

/-! ### The parser (`parse_mcqs` in `src/generate_mcqs.py`) -/

/-- `line.startswith(('A)', 'B)', 'C)', 'D)'))`. -/
def isOptionLine (l : List Char) : Bool :=
  "A)".data.isPrefixOf l || "B)".data.isPrefixOf l ||
  "C)".data.isPrefixOf l || "D)".data.isPrefixOf l

/-- `"Correct Answer:" in line or "Answer:" in line`. -/
def isAnswerLine (l : List Char) : Bool :=
  containsSub "Correct Answer:".data l || containsSub "Answer:".data l

/-- The non-blank, stripped lines of a block:
`[line.strip() for line in q_text.strip().split('\n') if line.strip()]`. -/
def pyLines (q_text : List Char) : List (List Char) :=
  ((pySplit ['\n'] (pyStrip q_text)).map pyStrip).filter (· ≠ [])

/-- The option-collection loop of `parse_mcqs` over `lines[1:]`: collect lines
starting with an option prefix; stop at the first remaining line that contains
an answer marker, returning it as the answer line (`[]` when none is found,
mirroring the Python empty-string sentinel). -/
def scanLines : List (List Char) → List (List Char) × List Char
  | [] => ([], [])
  | l :: rest =>
    if isOptionLine l then
      let p := scanLines rest
      (l :: p.1, p.2)
    else if isAnswerLine l then
      ([], l)
    else
      scanLines rest

/-- A parsed question record, with the fields built by `parse_mcqs`. -/
structure Question where
  question : List Char
  options : List (List Char)
  correct_answer : List Char
  raw_answer_line : List Char
deriving DecidableEq, Repr

/-- The per-block body of the `parse_mcqs` loop: accept or reject one candidate
block (the text following one `"Question "` marker). -/
def parseBlock (q_text : List Char) : Option Question :=
  let lines := pyLines q_text
  if lines.length < 6 then none
  else
    let question_text := pyRstripChar ':' (lines.headD [])
    let question_line := "Question ".data ++ question_text
    let p := scanLines lines.tail
    let options := p.1
    let answer_line := p.2
    if options.length = 4 ∧ answer_line ≠ [] then
      let answer_letter := pyUpper (pyStrip (lastD (pySplit [':'] answer_line)))
      if answer_letter = "A".data ∨ answer_letter = "B".data ∨
         answer_letter = "C".data ∨ answer_letter = "D".data then
        some ⟨question_line, options, answer_letter, answer_line⟩
      else none
    else none

/-- `response_text.strip().split('Question ')[1:]`: the candidate blocks. -/
def rawBlocks (response_text : List Char) : List (List Char) :=
  (pySplit "Question ".data (pyStrip response_text)).drop 1

/-- `parse_mcqs` over `List Char`: the accumulating loop of the Python source. -/
def parseMcqsL (response_text : List Char) : List Question :=
  if response_text.isEmpty then []
  else
    (rawBlocks response_text).foldl
      (fun questions q_text =>
        match parseBlock q_text with
        | some q => questions ++ [q]
        | none => questions)
      []

/-- `parse_mcqs` on a `String` input. -/
def parse_mcqs (response_text : String) : List Question :=
  parseMcqsL response_text.data

/-- Number of positions in the input at which the `"Question "` marker matches. -/
def numMarkers (s : String) : Nat :=
  countOccPos "Question ".data s.data

/-- A line at which the option-collection loop stops: it does not start with an
option prefix and it contains an answer marker. -/
def answerStop (l : List Char) : Bool :=
  !isOptionLine l && isAnswerLine l

/-! ### Modelled id assignment -/

/-- A parsed record together with its batch id. -/
structure NumberedQuestion where
  qid : Nat
  record : Question
deriving DecidableEq, Repr

/-- Worker for `assignIds`, numbering records from `start`. -/
def assignIdsFrom (start : Nat) : List Question → List NumberedQuestion
  | [] => []
  | q :: rest => ⟨start, q⟩ :: assignIdsFrom (start + 1) rest

/-- Modelled from the spec: the persistence step that writes the `mcqs_*.json`
batch files (this writer is not among the sources under verification; only its
output consumer `src/app.py` is) attaches to each parsed record an `id` equal to
its 1-based position among the accepted records, independent of any numbering
embedded in the source text. -/
def assignIds (qs : List Question) : List NumberedQuestion :=
  assignIdsFrom 1 qs

/-! ### Decimal string keys (Python `str(i)`) -/

/-- Fueled worker computing little-endian decimal digits by repeated division;
the fuel only bounds the recursion depth. -/
def natDigitsFuel : Nat → Nat → List Nat
  | 0, n => [n]
  | fuel + 1, n => if n < 10 then [n] else (n % 10) :: natDigitsFuel fuel (n / 10)

/-- Little-endian decimal digits of a natural number; `0` yields `[0]`. -/
def natDigits (n : Nat) : List Nat := natDigitsFuel n n

/-- The character for one decimal digit. -/
def digitChar : Nat → Char
  | 0 => '0' | 1 => '1' | 2 => '2' | 3 => '3' | 4 => '4'
  | 5 => '5' | 6 => '6' | 7 => '7' | 8 => '8' | 9 => '9'
  | _ + 10 => '?'

/-- Python `str(n)` for a natural number: its decimal representation. -/
def strKey (n : Nat) : String :=
  ⟨((natDigits n).map digitChar).reverse⟩

/-- Value of a little-endian digit list, used to invert `natDigits`. -/
def digitsVal : List Nat → Nat
  | [] => 0
  | d :: ds => d + 10 * digitsVal ds

/-! ### The quiz session engine (`src/app.py`) -/

/-- One question as stored in a loaded `mcqs_*.json` batch. -/
structure QuizQuestion where
  question : String
  options : List String
  correct_answer : String
deriving DecidableEq, Inhabited, Repr

/-- A loaded MCQ batch (`quiz_data`): its metadata query and its questions. -/
structure QuizData where
  query : String
  questions : List QuizQuestion
deriving DecidableEq, Inhabited, Repr

/-- The per-question answer dictionary entry stored by `submit_answer`. -/
structure AnswerRecord where
  user_answer : String
  correct_answer : String
  is_correct : Bool
deriving DecidableEq, Inhabited, Repr

/-- The keys `start_quiz` places in the Flask session. A cleared session is
modelled as `none` (all routes guard on the presence of `quiz_filename`, and the
only writers set or clear all keys together). -/
structure ActiveSession where
  quiz_filename : String
  current_question : Nat
  answers : List (String × AnswerRecord)
  score : Nat
  quiz_started : Bool
deriving DecidableEq, Inhabited, Repr

/-- The Flask session: absent or fully initialized. -/
abbrev Session := Option ActiveSession

/-- The filesystem environment seen through `load_mcq_data`: which filenames
load to which batch (`none` models a failed load). -/
abbrev LoadEnv := String → Option QuizData

/-- Python dict item assignment on an insertion-ordered association list:
overwrite the value at an existing key, otherwise append a new entry. -/
def dictInsert (d : List (String × AnswerRecord)) (k : String) (v : AnswerRecord) :
    List (String × AnswerRecord) :=
  if d.any (fun p => p.1 == k) then
    d.map (fun p => if p.1 == k then (k, v) else p)
  else d ++ [(k, v)]

/-- Python dict lookup on the association list. -/
def dictFind (d : List (String × AnswerRecord)) (k : String) : Option AnswerRecord :=
  (d.find? (fun p => p.1 == k)).map Prod.snd

/-- The `start_quiz` route: on a successful load, initialize the session keys;
on a failed load, redirect without touching the session. -/
def start_quiz (load : LoadEnv) (s : Session) (filename : String) : Session :=
  match load filename with
  | none => s
  | some _ =>
    some { quiz_filename := filename, current_question := 0, answers := [],
           score := 0, quiz_started := true }

/-- Outcome of the `submit_answer` route. `serverError` models the uncaught
exception raised when the session names a file that no longer loads. -/
inductive SubmitResult where
  | errorNoActiveQuiz
  | errorQuizCompleted
  | serverError
  | ok (correct : Bool) (correct_answer : String)
deriving DecidableEq, Repr

/-- The `submit_answer` route: guard on an active session and a cursor within
range, then store the answer at key `str(current_q)`, update the score on a
correct answer, and advance the cursor. -/
def submit_answer (load : LoadEnv) (s : Session) (user_answer : String) :
    SubmitResult × Session :=
  match s with
  | none => (.errorNoActiveQuiz, none)
  | some a =>
    match load a.quiz_filename with
    | none => (.serverError, some a)
    | some quiz_data =>
      if h : a.current_question < quiz_data.questions.length then
        let question_data := quiz_data.questions.get ⟨a.current_question, h⟩
        let correct_answer := question_data.correct_answer
        let is_correct := user_answer == correct_answer
        let a' : ActiveSession :=
          { a with
            answers := dictInsert a.answers (strKey a.current_question)
              ⟨user_answer, correct_answer, is_correct⟩
            score := if is_correct then a.score + 1 else a.score
            current_question := a.current_question + 1 }
        (.ok is_correct correct_answer, some a')
      else
        (.errorQuizCompleted, some a)

/-- Outcome of the `question` route. -/
inductive QuestionResult where
  | redirectIndex
  | redirectResults
  | serverError
  | showQuestion (question_data : QuizQuestion) (current : Nat) (total : Nat)
deriving DecidableEq, Repr

/-- The `question` route: read-only; redirects to the index with no session, to
the results page when the cursor is exhausted, and otherwise renders the current
question with a 1-based position and the total. -/
def question (load : LoadEnv) (s : Session) : QuestionResult :=
  match s with
  | none => .redirectIndex
  | some a =>
    match load a.quiz_filename with
    | none => .serverError
    | some quiz_data =>
      if h : a.current_question < quiz_data.questions.length then
        .showQuestion (quiz_data.questions.get ⟨a.current_question, h⟩)
          (a.current_question + 1) quiz_data.questions.length
      else
        .redirectResults

/-- The data rendered by the `results` route. -/
structure ResultsView where
  quiz_title : String
  score : Nat
  total : Nat
  percentage : ℚ
  detailed_results : List (QuizQuestion × AnswerRecord)
deriving DecidableEq

/-- Outcome of the `results` route. -/
inductive ResultsOutcome where
  | redirectIndex
  | serverError
  | view (v : ResultsView)
deriving DecidableEq

/-- The `results` route: read-only; derives the total from the loaded batch, the
percentage from score and total, and pairs each answered question with its
stored answer record in index order. -/
def results (load : LoadEnv) (s : Session) : ResultsOutcome :=
  match s with
  | none => .redirectIndex
  | some a =>
    match load a.quiz_filename with
    | none => .serverError
    | some quiz_data =>
      let total := quiz_data.questions.length
      let percentage : ℚ := if 0 < total then (a.score : ℚ) / (total : ℚ) * 100 else 0
      let detailed := quiz_data.questions.enum.filterMap (fun p =>
        match dictFind a.answers (strKey p.1) with
        | some ans => some (p.2, ans)
        | none => none)
      .view ⟨quiz_data.query, a.score, total, percentage, detailed⟩

/-- Outcome of the `api/quiz_progress` route. -/
inductive ProgressResult where
  | errorNoActiveQuiz
  | serverError
  | ok (current_question : Nat) (total_questions : Nat) (score : Nat)
deriving DecidableEq, Repr

/-- The `api/quiz_progress` route: read-only progress report. -/
def quiz_progress (load : LoadEnv) (s : Session) : ProgressResult :=
  match s with
  | none => .errorNoActiveQuiz
  | some a =>
    match load a.quiz_filename with
    | none => .serverError
    | some quiz_data =>
      .ok a.current_question quiz_data.questions.length a.score

/-- The `reset` route: `session.clear()`. -/
def reset_quiz (_ : Session) : Session := none

/-- One session-affecting request. The read-only routes leave the session as
they found it (they perform no session writes in the source). -/
inductive Op where
  | start (filename : String)
  | submit (answer : String)
  | viewQuestion
  | viewResults
  | viewProgress
  | reset
deriving DecidableEq

/-- Session state after one request. -/
def exec (load : LoadEnv) (s : Session) : Op → Session
  | .start fn => start_quiz load s fn
  | .submit ans => (submit_answer load s ans).2
  | .viewQuestion => s
  | .viewResults => s
  | .viewProgress => s
  | .reset => reset_quiz s

/-- Session state after a sequence of requests. -/
def run (load : LoadEnv) (ops : List Op) (s : Session) : Session :=
  ops.foldl (exec load) s

/-- Session state after a sequence of answer submissions. -/
def runSubmits (load : LoadEnv) (s : Session) (answers : List String) : Session :=
  answers.foldl (fun st ua => (submit_answer load st ua).2) s

/-- How many submitted labels match the correct label of the question they were
submitted against, pairing submissions with questions in order. -/
def matchCount (answers : List String) (qs : List QuizQuestion) : Nat :=
  (answers.zip qs).countP (fun p => p.1 == p.2.correct_answer)

/-- The answers-dictionary invariant: its keys are exactly
`str(0), ..., str(cursor - 1)`, in order. -/
def answersInv (s : Session) : Bool :=
  match s with
  | none => true
  | some a => a.answers.map Prod.fst == (List.range a.current_question).map strKey

/-- A concrete three-question batch, used to instantiate theorems at the spec
scenario (correct answers A, B, C). -/
def exData : QuizData :=
  ⟨"sample topic",
   [⟨"Question 1: q1", ["A) a", "B) b", "C) c", "D) d"], "A"⟩,
    ⟨"Question 2: q2", ["A) a", "B) b", "C) c", "D) d"], "B"⟩,
    ⟨"Question 3: q3", ["A) a", "B) b", "C) c", "D) d"], "C"⟩]⟩

/-- A concrete load environment with exactly one readable batch file. -/
def exLoad : LoadEnv :=
  fun fn => if fn = "mcqs_sample.json" then some exData else none

/-! ### Basic lemmas about the string primitives -/

lemma isPrefixOf_append_of_isPrefixOf (sep : List Char) :
    ∀ (l b : List Char), sep.isPrefixOf l = true → sep.isPrefixOf (l ++ b) = true := by
  induction sep with
  | nil => intro l b _; simp [List.isPrefixOf]
  | cons c cs ih =>
    intro l b h
    cases l with
    | nil => simp [List.isPrefixOf] at h
    | cons c' ls =>
      simp only [List.isPrefixOf, Bool.and_eq_true] at h ⊢
      exact ⟨h.1, ih ls b h.2⟩

lemma eq_append_drop_of_isPrefixOf (sep : List Char) :
    ∀ (l : List Char), sep.isPrefixOf l = true → l = sep ++ l.drop sep.length := by
  induction sep with
  | nil => intro l _; simp
  | cons c cs ih =>
    intro l h
    cases l with
    | nil => simp [List.isPrefixOf] at h
    | cons c' ls =>
      simp only [List.isPrefixOf, Bool.and_eq_true, beq_iff_eq] at h
      simp only [List.length_cons, List.drop_succ_cons, List.cons_append, List.cons.injEq]
      exact ⟨h.1.symm, ih ls h.2⟩

lemma isPrefixOf_append_self (sep : List Char) :
    ∀ (t : List Char), sep.isPrefixOf (sep ++ t) = true := by
  induction sep with
  | nil => intro t; simp [List.isPrefixOf]
  | cons c cs ih => intro t; simp [List.isPrefixOf, ih]

lemma countOccPos_le_append_left (sep : List Char) :
    ∀ (a b : List Char), countOccPos sep b ≤ countOccPos sep (a ++ b) := by
  intro a
  induction a with
  | nil => intro b; simp
  | cons c a' ih =>
    intro b
    calc countOccPos sep b ≤ countOccPos sep (a' ++ b) := ih b
    _ ≤ countOccPos sep (c :: (a' ++ b)) := by
          simp only [countOccPos]; omega
    _ = countOccPos sep ((c :: a') ++ b) := rfl

lemma countOccPos_le_append_right (sep : List Char) :
    ∀ (m b : List Char), countOccPos sep m ≤ countOccPos sep (m ++ b) := by
  intro m
  induction m with
  | nil => intro b; simp [countOccPos]
  | cons c m' ih =>
    intro b
    have key : countOccPos sep ((c :: m') ++ b) =
        (if sep.isPrefixOf ((c :: m') ++ b) then 1 else 0) + countOccPos sep (m' ++ b) := rfl
    have key2 : countOccPos sep (c :: m') =
        (if sep.isPrefixOf (c :: m') then 1 else 0) + countOccPos sep m' := rfl
    have h1 : (if sep.isPrefixOf (c :: m') then 1 else 0) ≤
        (if sep.isPrefixOf ((c :: m') ++ b) then 1 else 0) := by
      by_cases hp : sep.isPrefixOf (c :: m')
      · rw [if_pos hp, if_pos (isPrefixOf_append_of_isPrefixOf sep (c :: m') b hp)]
      · simp [hp]
    have h2 := ih b
    omega

lemma countOccPos_infix_le (sep a m b : List Char) :
    countOccPos sep m ≤ countOccPos sep (a ++ (m ++ b)) :=
  le_trans (countOccPos_le_append_right sep m b) (countOccPos_le_append_left sep a (m ++ b))

lemma findSplit_eq (sep : List Char) :
    ∀ (s pre post : List Char), findSplit sep s = some (pre, post) →
      s = pre ++ sep ++ post := by
  intro s
  induction s with
  | nil => intro pre post h; simp [findSplit] at h
  | cons c rest ih =>
    intro pre post h
    by_cases hp : sep.isPrefixOf (c :: rest)
    · rw [findSplit, if_pos hp] at h
      obtain ⟨h1, h2⟩ := Prod.mk.injEq .. ▸ Option.some.injEq .. ▸ h
      subst h1; subst h2
      simpa using eq_append_drop_of_isPrefixOf sep (c :: rest) hp
    · rw [findSplit, if_neg hp] at h
      cases h2 : findSplit sep rest with
      | none => rw [h2] at h; exact absurd h (by simp)
      | some pq =>
        obtain ⟨p', q'⟩ := pq
        rw [h2] at h
        simp only [Option.some.injEq, Prod.mk.injEq] at h
        obtain ⟨hpre, hpost⟩ := h
        subst hpre; subst hpost
        have := ih p' q' h2
        simp [this]

lemma countOccPos_of_findSplit (sep : List Char) (hsep : sep ≠ [])
    (s pre post : List Char) (h : findSplit sep s = some (pre, post)) :
    countOccPos sep post + 1 ≤ countOccPos sep s := by
  have hs := findSplit_eq sep s pre post h
  subst hs
  cases sep with
  | nil => exact absurd rfl hsep
  | cons c cs =>
    have h1 : countOccPos (c :: cs) ((c :: cs) ++ post) =
        1 + countOccPos (c :: cs) (cs ++ post) := by
      have hp := isPrefixOf_append_self (c :: cs) post
      simp only [List.cons_append] at hp ⊢
      rw [countOccPos, if_pos hp]
    have h2 := countOccPos_le_append_left (c :: cs) cs post
    have h3 := countOccPos_le_append_left (c :: cs) pre ((c :: cs) ++ post)
    rw [List.append_assoc]
    omega

lemma pySplitFuel_length_le (sep : List Char) (hsep : sep ≠ []) :
    ∀ (fuel : Nat) (s : List Char),
      (pySplitFuel sep fuel s).length ≤ countOccPos sep s + 1 := by
  intro fuel
  induction fuel with
  | zero => intro s; simp [pySplitFuel]
  | succ fuel ih =>
    intro s
    rw [pySplitFuel]
    cases h : findSplit sep s with
    | none => simp
    | some pq =>
      obtain ⟨pre, post⟩ := pq
      have h1 := ih post
      have h2 := countOccPos_of_findSplit sep hsep s pre post h
      simp only [List.length_cons]
      omega

lemma dropWhile_eq_exists (p : Char → Bool) :
    ∀ (l : List Char), ∃ t, t ++ l.dropWhile p = l := by
  intro l
  induction l with
  | nil => exact ⟨[], rfl⟩
  | cons c l' ih =>
    by_cases hc : p c
    · obtain ⟨t, ht⟩ := ih
      exact ⟨c :: t, by simp [List.dropWhile_cons, hc, ht]⟩
    · exact ⟨[], by simp [List.dropWhile_cons, hc]⟩

lemma pyStrip_infix (s : List Char) : ∃ a b, s = a ++ (pyStrip s ++ b) := by
  obtain ⟨t, ht⟩ := dropWhile_eq_exists pyIsSpace s
  obtain ⟨t2, ht2⟩ := dropWhile_eq_exists pyIsSpace (s.dropWhile pyIsSpace).reverse
  have h3 : pyStrip s ++ t2.reverse = s.dropWhile pyIsSpace := by
    have h4 := congrArg List.reverse ht2
    simpa [pyStrip] using h4
  exact ⟨t, t2.reverse, by rw [h3, ht]⟩

lemma countOccPos_pyStrip_le (sep s : List Char) :
    countOccPos sep (pyStrip s) ≤ countOccPos sep s := by
  obtain ⟨a, b, hs⟩ := pyStrip_infix s
  conv_rhs => rw [hs]
  exact countOccPos_infix_le sep a (pyStrip s) b

/-! ### The parser loop as a filterMap -/

lemma foldl_opt_append (f : List Char → Option Question) :
    ∀ (l : List (List Char)) (acc : List Question),
      l.foldl (fun questions q_text =>
        match f q_text with
        | some q => questions ++ [q]
        | none => questions) acc = acc ++ l.filterMap f := by
  intro l
  induction l with
  | nil => intro acc; simp
  | cons q l' ih =>
    intro acc
    cases hq : f q with
    | none => simp [List.foldl_cons, hq, ih]
    | some r => simp [List.foldl_cons, hq, ih]

lemma parseMcqsL_eq_filterMap (s : List Char) :
    parseMcqsL s = (rawBlocks s).filterMap parseBlock := by
  unfold parseMcqsL
  by_cases h : s.isEmpty
  · have hs : s = [] := by simpa [List.isEmpty_iff] using h
    subst hs
    rfl
  · rw [if_neg h, foldl_opt_append]
    simp

/-! ### Characterizing the option-collection loop -/

lemma scanLines_eq_spec :
    ∀ ls : List (List Char), scanLines ls =
      ((ls.takeWhile (fun l => !answerStop l)).filter isOptionLine,
       (ls.find? answerStop).getD []) := by
  intro ls
  induction ls with
  | nil => rfl
  | cons l rest ih =>
    by_cases ho : isOptionLine l
    · have hstop : answerStop l = false := by simp [answerStop, ho]
      rw [scanLines, if_pos ho, ih, List.takeWhile_cons,
        List.find?_cons_of_neg _ (by simp [hstop])]
      simp [hstop, List.filter_cons, ho]
    · by_cases ha : isAnswerLine l
      · have hstop : answerStop l = true := by simp [answerStop, ho, ha]
        rw [scanLines, if_neg ho, if_pos ha, List.takeWhile_cons,
          List.find?_cons_of_pos _ hstop]
        simp [hstop]
      · have hstop : answerStop l = false := by simp [answerStop, ho, ha]
        rw [scanLines, if_neg ho, if_neg ha, ih, List.takeWhile_cons,
          List.find?_cons_of_neg _ (by simp [hstop])]
        simp [hstop, List.filter_cons, ho]

/-- Everything the acceptance of a candidate block pins down about the emitted
record: the block has at least 6 non-blank lines, the options are exactly the
option-prefixed lines occurring before the first answer line (in order), there
are exactly 4 of them, the answer line used is the first non-option line
containing an answer marker, and the letter is the upper-cased trimmed text
after its last colon, one of A, B, C, D. -/
lemma parseBlock_spec {q_text : List Char} {r : Question}
    (h : parseBlock q_text = some r) :
    6 ≤ (pyLines q_text).length ∧
    r.question = "Question ".data ++ pyRstripChar ':' ((pyLines q_text).headD []) ∧
    r.options = (((pyLines q_text).tail.takeWhile
      (fun l => !answerStop l)).filter isOptionLine) ∧
    r.options.length = 4 ∧
    (pyLines q_text).tail.find? answerStop = some r.raw_answer_line ∧
    r.correct_answer = pyUpper (pyStrip (lastD (pySplit [':'] r.raw_answer_line))) ∧
    (r.correct_answer = "A".data ∨ r.correct_answer = "B".data ∨
     r.correct_answer = "C".data ∨ r.correct_answer = "D".data) := by
  simp only [parseBlock] at h
  rw [scanLines_eq_spec] at h
  by_cases h6 : (pyLines q_text).length < 6
  · rw [if_pos h6] at h
    exact absurd h (by simp)
  · rw [if_neg h6] at h
    simp only at h
    by_cases h4 : (((pyLines q_text).tail.takeWhile
        (fun l => !answerStop l)).filter isOptionLine).length = 4 ∧
        ((pyLines q_text).tail.find? answerStop).getD [] ≠ []
    · rw [if_pos h4] at h
      obtain ⟨h41, h42⟩ := h4
      cases hf : (pyLines q_text).tail.find? answerStop with
      | none => rw [hf] at h42; exact absurd rfl h42
      | some al =>
        rw [hf] at h h42
        simp only [Option.getD_some] at h h42
        by_cases hL : pyUpper (pyStrip (lastD (pySplit [':'] al))) = "A".data ∨
            pyUpper (pyStrip (lastD (pySplit [':'] al))) = "B".data ∨
            pyUpper (pyStrip (lastD (pySplit [':'] al))) = "C".data ∨
            pyUpper (pyStrip (lastD (pySplit [':'] al))) = "D".data
        · rw [if_pos hL] at h
          have hr : Question.mk ("Question ".data ++
              pyRstripChar ':' ((pyLines q_text).headD []))
              (((pyLines q_text).tail.takeWhile
                (fun l => !answerStop l)).filter isOptionLine)
              (pyUpper (pyStrip (lastD (pySplit [':'] al)))) al = r :=
            Option.some.inj h
          subst hr
          exact ⟨by omega, rfl, rfl, h41, rfl, rfl, hL⟩
        · rw [if_neg hL] at h
          exact absurd h (by simp)
    · rw [if_neg h4] at h
      exact absurd h (by simp)

/-! ### Parser claim theorems -/

/-- C4: the parser is total — every input string, however malformed, yields a
result (the embedding is a total function, mirroring that no exception escapes
`parse_mcqs`), and the empty string yields the empty output sequence. -/
theorem c4_parse_total_empty :
    parse_mcqs "" = [] ∧ ∀ s : String, ∃ out : List Question, parse_mcqs s = out :=
  ⟨rfl, fun s => ⟨parse_mcqs s, rfl⟩⟩

/-- C8: the parser output is the in-order filterMap of the per-block acceptor
over the candidate blocks (records appear in the order of their source blocks),
and its length never exceeds the number of "Question " markers in the input. -/
theorem c8_length_le_markers (s : String) :
    parse_mcqs s = (rawBlocks s.data).filterMap parseBlock ∧
    (parse_mcqs s).length ≤ numMarkers s := by
  have hq : "Question ".data ≠ ([] : List Char) := by decide
  refine ⟨parseMcqsL_eq_filterMap s.data, ?_⟩
  rw [show parse_mcqs s = (rawBlocks s.data).filterMap parseBlock from
    parseMcqsL_eq_filterMap s.data]
  calc ((rawBlocks s.data).filterMap parseBlock).length
      ≤ (rawBlocks s.data).length := List.length_filterMap_le _ _
    _ ≤ countOccPos "Question ".data (pyStrip s.data) := by
        unfold rawBlocks pySplit
        have h := pySplitFuel_length_le "Question ".data hq
          (pyStrip s.data).length (pyStrip s.data)
        rw [List.length_drop]
        omega
    _ ≤ numMarkers s := countOccPos_pyStrip_le _ _

/-- C1 counterexample: a block whose four option lines all come after the
answer line has exactly 4 option-prefixed non-blank lines (among 6), and a
valid answer line, yet the parser emits no record for it — option lines after
the answer line are not collected, contrary to the claim. -/
theorem c1_counterexample :
    (pyLines "1: What?\nCorrect Answer: A\nA) x\nB) y\nC) z\nD) w".data).countP
      isOptionLine = 4 ∧
    6 ≤ (pyLines "1: What?\nCorrect Answer: A\nA) x\nB) y\nC) z\nD) w".data).length ∧
    rawBlocks "Question 1: What?\nCorrect Answer: A\nA) x\nB) y\nC) z\nD) w".data =
      ["1: What?\nCorrect Answer: A\nA) x\nB) y\nC) z\nD) w".data] ∧
    parse_mcqs "Question 1: What?\nCorrect Answer: A\nA) x\nB) y\nC) z\nD) w" = [] := by
  decide

/-- C1 (amended): a candidate block is accepted only when exactly 4 of the
non-blank lines after the first, scanned in order up to (and not including) the
first answer line, begin with one of the option prefixes A), B), C), D); those
4 are collected in scan order, and option lines after the answer line are not
collected. -/
theorem c1_options_before_answer (q_text : List Char) (r : Question)
    (h : parseBlock q_text = some r) :
    6 ≤ (pyLines q_text).length ∧
    r.options = (((pyLines q_text).tail.takeWhile
      (fun l => !answerStop l)).filter isOptionLine) ∧
    r.options.length = 4 := by
  obtain ⟨h1, _, h3, h4, _, _, _⟩ := parseBlock_spec h
  exact ⟨h1, h3, h4⟩

/-- Witness for C1: a concrete well-formed block is accepted and its options
are exactly the option lines collected before the answer line. -/
theorem c1_options_before_answer_witness :
    6 ≤ (pyLines "1: q\nA) a\nB) b\nC) c\nD) d\nCorrect Answer: A".data).length ∧
    (Question.mk "Question 1: q".data
      ["A) a".data, "B) b".data, "C) c".data, "D) d".data]
      "A".data "Correct Answer: A".data).options =
      ((( pyLines "1: q\nA) a\nB) b\nC) c\nD) d\nCorrect Answer: A".data).tail.takeWhile
        (fun l => !answerStop l)).filter isOptionLine) ∧
    (Question.mk "Question 1: q".data
      ["A) a".data, "B) b".data, "C) c".data, "D) d".data]
      "A".data "Correct Answer: A".data).options.length = 4 :=
  c1_options_before_answer "1: q\nA) a\nB) b\nC) c\nD) d\nCorrect Answer: A".data
    (Question.mk "Question 1: q".data
      ["A) a".data, "B) b".data, "C) c".data, "D) d".data]
      "A".data "Correct Answer: A".data) (by decide)

/-- C5 counterexample: scanning top to bottom, the first line containing an
answer marker is the option line "A) Answer: B", but the parser treats it as an
option and uses the later line "Correct Answer: A", emitting letter A — so the
answer line used is not the first marker-bearing line. -/
theorem c5_counterexample :
    (pyLines "1: q\nA) Answer: B\nB) b\nC) c\nD) d\nCorrect Answer: A".data).find?
      isAnswerLine = some "A) Answer: B".data ∧
    (parse_mcqs "Question 1: q\nA) Answer: B\nB) b\nC) c\nD) d\nCorrect Answer: A").map
      Question.raw_answer_line = ["Correct Answer: A".data] ∧
    (parse_mcqs "Question 1: q\nA) Answer: B\nB) b\nC) c\nD) d\nCorrect Answer: A").map
      Question.correct_answer = ["A".data] := by
  decide

/-- C5 (amended): the answer line used is the first line, among the non-blank
lines after the block's first line, that contains an answer marker and does not
begin with an option prefix; the block is accepted only if the text after the
last colon of that line, trimmed and upper-cased, is exactly one of A, B, C, D,
and the record's correct_answer equals that letter. -/
theorem c5_answer_line_selection (q_text : List Char) (r : Question)
    (h : parseBlock q_text = some r) :
    (pyLines q_text).tail.find? answerStop = some r.raw_answer_line ∧
    r.correct_answer = pyUpper (pyStrip (lastD (pySplit [':'] r.raw_answer_line))) ∧
    (r.correct_answer = "A".data ∨ r.correct_answer = "B".data ∨
     r.correct_answer = "C".data ∨ r.correct_answer = "D".data) := by
  obtain ⟨_, _, _, _, h5, h6, h7⟩ := parseBlock_spec h
  exact ⟨h5, h6, h7⟩

/-- Witness for C5: on a concrete block the answer line and letter are as the
amended claim states (with lower-case "d" upper-cased to D). -/
theorem c5_answer_line_selection_witness :
    (pyLines "1: w\nA) a\nB) b\nC) c\nD) d\nAnswer: d".data).tail.find? answerStop =
      some (Question.mk "Question 1: w".data
        ["A) a".data, "B) b".data, "C) c".data, "D) d".data]
        "D".data "Answer: d".data).raw_answer_line ∧
    (Question.mk "Question 1: w".data
        ["A) a".data, "B) b".data, "C) c".data, "D) d".data]
        "D".data "Answer: d".data).correct_answer =
      pyUpper (pyStrip (lastD (pySplit [':']
        (Question.mk "Question 1: w".data
          ["A) a".data, "B) b".data, "C) c".data, "D) d".data]
          "D".data "Answer: d".data).raw_answer_line))) ∧
    ((Question.mk "Question 1: w".data
        ["A) a".data, "B) b".data, "C) c".data, "D) d".data]
        "D".data "Answer: d".data).correct_answer = "A".data ∨
     (Question.mk "Question 1: w".data
        ["A) a".data, "B) b".data, "C) c".data, "D) d".data]
        "D".data "Answer: d".data).correct_answer = "B".data ∨
     (Question.mk "Question 1: w".data
        ["A) a".data, "B) b".data, "C) c".data, "D) d".data]
        "D".data "Answer: d".data).correct_answer = "C".data ∨
     (Question.mk "Question 1: w".data
        ["A) a".data, "B) b".data, "C) c".data, "D) d".data]
        "D".data "Answer: d".data).correct_answer = "D".data) :=
  c5_answer_line_selection "1: w\nA) a\nB) b\nC) c\nD) d\nAnswer: d".data
    (Question.mk "Question 1: w".data
      ["A) a".data, "B) b".data, "C) c".data, "D) d".data]
      "D".data "Answer: d".data) (by decide)

/-- C7 counterexample: a block with four option lines all labelled "A)" and
answer letter B is accepted; its options are not a mapping over the four labels
and its correct answer matches no option line's prefix. -/
theorem c7_counterexample :
    (parse_mcqs "Question 1: q\nA) w\nA) x\nA) y\nA) z\nCorrect Answer: B").map
      Question.options = [["A) w".data, "A) x".data, "A) y".data, "A) z".data]] ∧
    (parse_mcqs "Question 1: q\nA) w\nA) x\nA) y\nA) z\nCorrect Answer: B").map
      Question.correct_answer = ["B".data] ∧
    (parse_mcqs "Question 1: q\nA) w\nA) x\nA) y\nA) z\nCorrect Answer: B").map
      (fun r => r.options.countP (fun l => "B)".data.isPrefixOf l)) = [0] := by
  decide

/-- C7 (amended): every record emitted by the parser has exactly 4 option
lines, each beginning with one of the prefixes A), B), C), D), and a
correct_answer in {A, B, C, D}; the 4 prefix labels need not be distinct or
exhaustive, and the correct_answer need not match any option line's prefix. -/
theorem c7_emitted_record_shape (s : String) (r : Question)
    (h : r ∈ parse_mcqs s) :
    r.options.length = 4 ∧
    (∀ l ∈ r.options, isOptionLine l = true) ∧
    (r.correct_answer = "A".data ∨ r.correct_answer = "B".data ∨
     r.correct_answer = "C".data ∨ r.correct_answer = "D".data) := by
  rw [show parse_mcqs s = (rawBlocks s.data).filterMap parseBlock from
    parseMcqsL_eq_filterMap s.data] at h
  rw [List.mem_filterMap] at h
  obtain ⟨q_text, _, hq⟩ := h
  obtain ⟨_, _, h3, h4, _, _, h7⟩ := parseBlock_spec hq
  refine ⟨h4, ?_, h7⟩
  intro l hl
  rw [h3] at hl
  exact List.of_mem_filter hl

/-- Witness for C7: a concrete emitted record has 4 option-prefixed lines and a
letter in the valid set. -/
theorem c7_emitted_record_shape_witness :
    (Question.mk "Question 2: r".data
      ["A) e".data, "B) f".data, "C) g".data, "D) h".data]
      "C".data "Correct Answer: C".data).options.length = 4 ∧
    (∀ l ∈ (Question.mk "Question 2: r".data
      ["A) e".data, "B) f".data, "C) g".data, "D) h".data]
      "C".data "Correct Answer: C".data).options, isOptionLine l = true) ∧
    ((Question.mk "Question 2: r".data
      ["A) e".data, "B) f".data, "C) g".data, "D) h".data]
      "C".data "Correct Answer: C".data).correct_answer = "A".data ∨
     (Question.mk "Question 2: r".data
      ["A) e".data, "B) f".data, "C) g".data, "D) h".data]
      "C".data "Correct Answer: C".data).correct_answer = "B".data ∨
     (Question.mk "Question 2: r".data
      ["A) e".data, "B) f".data, "C) g".data, "D) h".data]
      "C".data "Correct Answer: C".data).correct_answer = "C".data ∨
     (Question.mk "Question 2: r".data
      ["A) e".data, "B) f".data, "C) g".data, "D) h".data]
      "C".data "Correct Answer: C".data).correct_answer = "D".data) :=
  c7_emitted_record_shape "Question 2: r\nA) e\nB) f\nC) g\nD) h\nCorrect Answer: C"
    (Question.mk "Question 2: r".data
      ["A) e".data, "B) f".data, "C) g".data, "D) h".data]
      "C".data "Correct Answer: C".data) (by decide)

/-! ### Id assignment -/

lemma assignIdsFrom_map_qid :
    ∀ (qs : List Question) (n : Nat),
      (assignIdsFrom n qs).map NumberedQuestion.qid = List.range' n qs.length := by
  intro qs
  induction qs with
  | nil => intro n; rfl
  | cons q rest ih =>
    intro n
    simp only [assignIdsFrom, List.map_cons, List.length_cons, List.range'_succ, ih]

/-- C3: ids carried by the persisted records are exactly 1..N by output
position, independent of any numbering embedded in the source text; in
particular a first accepted block labelled "Question 5" gets id 1. -/
theorem c3_ids_by_position :
    (∀ s : String, (assignIds (parse_mcqs s)).map NumberedQuestion.qid =
      List.range' 1 (parse_mcqs s).length) ∧
    (assignIds (parse_mcqs
      "Question 5: Which?\nA) a\nB) b\nC) c\nD) d\nCorrect Answer: A")).map
      NumberedQuestion.qid = [1] := by
  refine ⟨fun s => assignIdsFrom_map_qid (parse_mcqs s) 1, ?_⟩
  decide

/-! ### Decimal keys are injective -/

lemma digitsVal_natDigitsFuel :
    ∀ (fuel n : Nat), digitsVal (natDigitsFuel fuel n) = n := by
  intro fuel
  induction fuel with
  | zero => intro n; simp [natDigitsFuel, digitsVal]
  | succ fuel ih =>
    intro n
    rw [natDigitsFuel]
    by_cases h : n < 10
    · rw [if_pos h]; simp [digitsVal]
    · rw [if_neg h]
      simp only [digitsVal, ih (n / 10)]
      omega

lemma digitsVal_natDigits (n : Nat) : digitsVal (natDigits n) = n :=
  digitsVal_natDigitsFuel n n

lemma natDigitsFuel_all_lt :
    ∀ (fuel n : Nat), n ≤ fuel → ∀ d ∈ natDigitsFuel fuel n, d < 10 := by
  intro fuel
  induction fuel with
  | zero => intro n hn d hd; simp [natDigitsFuel] at hd; omega
  | succ fuel ih =>
    intro n hn d hd
    rw [natDigitsFuel] at hd
    by_cases h : n < 10
    · rw [if_pos h] at hd; simp at hd; omega
    · rw [if_neg h] at hd
      rcases List.mem_cons.mp hd with h1 | h2
      · omega
      · exact ih (n / 10) (by omega) d h2

lemma natDigits_all_lt (n : Nat) : ∀ d ∈ natDigits n, d < 10 :=
  natDigitsFuel_all_lt n n (le_refl n)

lemma natDigits_inj {m n : Nat} (h : natDigits m = natDigits n) : m = n := by
  have hm := digitsVal_natDigits m
  rw [h, digitsVal_natDigits] at hm
  omega

lemma digitChar_inj_lt :
    ∀ d, d < 10 → ∀ e, e < 10 → digitChar d = digitChar e → d = e := by decide

lemma map_digitChar_inj :
    ∀ (ds es : List Nat), (∀ d ∈ ds, d < 10) → (∀ e ∈ es, e < 10) →
      ds.map digitChar = es.map digitChar → ds = es := by
  intro ds
  induction ds with
  | nil =>
    intro es _ _ h
    cases es with
    | nil => rfl
    | cons e es' => simp at h
  | cons d ds' ih =>
    intro es hd he h
    cases es with
    | nil => simp at h
    | cons e es' =>
      simp only [List.map_cons, List.cons.injEq] at h
      have h1 := digitChar_inj_lt d (hd d (by simp)) e (he e (by simp)) h.1
      have h2 := ih es' (fun x hx => hd x (by simp [hx]))
        (fun x hx => he x (by simp [hx])) h.2
      rw [h1, h2]

lemma strKey_inj {m n : Nat} (h : strKey m = strKey n) : m = n := by
  have hdata := congrArg String.data h
  simp only [strKey] at hdata
  rw [List.reverse_inj] at hdata
  exact natDigits_inj
    (map_digitChar_inj _ _ (natDigits_all_lt m) (natDigits_all_lt n) hdata)

lemma strKey_not_mem (c : Nat) : strKey c ∉ (List.range c).map strKey := by
  intro h
  rw [List.mem_map] at h
  obtain ⟨i, hi, he⟩ := h
  rw [List.mem_range] at hi
  have := strKey_inj he
  omega

/-! ### Session-engine lemmas -/

lemma answersInv_some_iff (a : ActiveSession) :
    answersInv (some a) = true ↔
      a.answers.map Prod.fst = (List.range a.current_question).map strKey := by
  simp [answersInv]

lemma dictInsert_eq_append {a : ActiveSession}
    (hInv : a.answers.map Prod.fst = (List.range a.current_question).map strKey)
    (v : AnswerRecord) :
    dictInsert a.answers (strKey a.current_question) v =
      a.answers ++ [(strKey a.current_question, v)] := by
  unfold dictInsert
  rw [if_neg]
  intro hany
  rw [List.any_eq_true] at hany
  obtain ⟨p, hp, hbeq⟩ := hany
  have hpk : p.1 = strKey a.current_question := by simpa using hbeq
  have hmem : p.1 ∈ a.answers.map Prod.fst := List.mem_map_of_mem _ hp
  rw [hInv, hpk] at hmem
  exact strKey_not_mem _ hmem

lemma submit_answer_step (load : LoadEnv) (a : ActiveSession) (data : QuizData)
    (hload : load a.quiz_filename = some data)
    (hlt : a.current_question < data.questions.length) (ua : String) :
    submit_answer load (some a) ua =
      (.ok (ua == (data.questions.get ⟨a.current_question, hlt⟩).correct_answer)
        (data.questions.get ⟨a.current_question, hlt⟩).correct_answer,
       some { a with
         answers := dictInsert a.answers (strKey a.current_question)
           ⟨ua, (data.questions.get ⟨a.current_question, hlt⟩).correct_answer,
            ua == (data.questions.get ⟨a.current_question, hlt⟩).correct_answer⟩
         score := if ua == (data.questions.get ⟨a.current_question, hlt⟩).correct_answer
           then a.score + 1 else a.score
         current_question := a.current_question + 1 }) := by
  simp only [submit_answer, hload]
  rw [dif_pos hlt]

lemma runSubmits_spec (load : LoadEnv) :
    ∀ (answers : List String) (a : ActiveSession) (data : QuizData),
      load a.quiz_filename = some data →
      a.current_question + answers.length ≤ data.questions.length →
      ∃ a', runSubmits load (some a) answers = some a' ∧
        a'.quiz_filename = a.quiz_filename ∧
        a'.current_question = a.current_question + answers.length ∧
        a'.score = a.score + matchCount answers (data.questions.drop a.current_question) := by
  intro answers
  induction answers with
  | nil =>
    intro a data hload hlen
    exact ⟨a, rfl, rfl, by simp, by simp [matchCount]⟩
  | cons ua rest ih =>
    intro a data hload hlen
    have hlt : a.current_question < data.questions.length := by
      simp only [List.length_cons] at hlen; omega
    have hstep := submit_answer_step load a data hload hlt ua
    obtain ⟨a', h1, h2, h3, h4⟩ := ih
      { a with
        answers := dictInsert a.answers (strKey a.current_question)
          ⟨ua, (data.questions.get ⟨a.current_question, hlt⟩).correct_answer,
           ua == (data.questions.get ⟨a.current_question, hlt⟩).correct_answer⟩
        score := if ua == (data.questions.get ⟨a.current_question, hlt⟩).correct_answer
          then a.score + 1 else a.score
        current_question := a.current_question + 1 }
      data hload (by simp only [List.length_cons] at hlen; simpa using by omega)
    refine ⟨a', ?_, ?_, ?_, ?_⟩
    · rw [runSubmits, List.foldl_cons, hstep]
      exact h1
    · exact h2
    · rw [h3]; simp only [List.length_cons]; omega
    · rw [h4]
      have hdrop : data.questions.drop a.current_question =
          data.questions.get ⟨a.current_question, hlt⟩ ::
            data.questions.drop (a.current_question + 1) := by
        rw [List.drop_eq_getElem_cons hlt]
        rfl
      rw [hdrop]
      simp only [matchCount, List.zip_cons_cons, List.countP_cons]
      by_cases hc : ua == (data.questions.get ⟨a.current_question, hlt⟩).correct_answer
      · simp only [hc, if_pos, if_true]
        omega
      · simp only [Bool.not_eq_true] at hc
        simp only [hc, if_false, Bool.false_eq_true]
        omega

/-- C2: on a started session, every accepted `submit_answer` call advances the
cursor by exactly 1 and keeps it within the total, and after a sequence of
accepted submissions the score equals the count of submissions whose submitted
label equals the question's correct label. -/
theorem c2_cursor_and_score (load : LoadEnv) (fn : String) (data : QuizData)
    (answers : List String)
    (hload : load fn = some data)
    (hlen : answers.length ≤ data.questions.length) :
    (∃ a', runSubmits load (start_quiz load none fn) answers = some a' ∧
      a'.current_question = answers.length ∧
      a'.current_question ≤ data.questions.length ∧
      a'.score = matchCount answers data.questions) ∧
    (∀ (s : Session) (ua : String) (b : Bool) (c : String) (s' : Session),
      submit_answer load s ua = (.ok b c, s') →
      ∃ a a', s = some a ∧ s' = some a' ∧
        a'.current_question = a.current_question + 1 ∧
        ∃ d, load a.quiz_filename = some d ∧
          a'.current_question ≤ d.questions.length) := by
  constructor
  · have hstart : start_quiz load none fn = some ⟨fn, 0, [], 0, true⟩ := by
      simp [start_quiz, hload]
    rw [hstart]
    obtain ⟨a', h1, _, h3, h4⟩ := runSubmits_spec load answers ⟨fn, 0, [], 0, true⟩
      data hload (by simpa using hlen)
    have h3' : a'.current_question = answers.length := by simpa using h3
    have h4' : a'.score = matchCount answers data.questions := by simpa using h4
    exact ⟨a', h1, h3', by omega, h4'⟩
  · intro s ua b c s' h
    cases s with
    | none => simp [submit_answer] at h
    | some a =>
      cases hl : load a.quiz_filename with
      | none => simp only [submit_answer, hl] at h; simp at h
      | some d =>
        by_cases hlt : a.current_question < d.questions.length
        · have hstep := submit_answer_step load a d hl hlt ua
          rw [hstep] at h
          rw [Prod.mk.injEq] at h
          obtain ⟨hb, hs'⟩ := h
          refine ⟨a, _, rfl, hs'.symm, rfl, d, hl, ?_⟩
          show a.current_question + 1 ≤ d.questions.length
          omega
        · simp only [submit_answer, hl] at h
          rw [dif_neg hlt] at h
          simp at h

/-- Witness for C2: the spec scenario — three questions with correct answers
A, B, C; submitting A, X, C yields cursor 3 and score 2. -/
theorem c2_cursor_and_score_witness :
    (∃ a', runSubmits exLoad (start_quiz exLoad none "mcqs_sample.json")
        ["A", "X", "C"] = some a' ∧
      a'.current_question = (["A", "X", "C"] : List String).length ∧
      a'.current_question ≤ exData.questions.length ∧
      a'.score = matchCount ["A", "X", "C"] exData.questions) ∧
    (∃ a a', (some (ActiveSession.mk "mcqs_sample.json" 0 [] 0 true) : Session) = some a ∧
      (submit_answer exLoad (some (ActiveSession.mk "mcqs_sample.json" 0 [] 0 true)) "A").2 =
        some a' ∧
      a'.current_question = a.current_question + 1 ∧
      ∃ d, exLoad a.quiz_filename = some d ∧
        a'.current_question ≤ d.questions.length) := by
  have h := c2_cursor_and_score exLoad "mcqs_sample.json" exData ["A", "X", "C"]
    (by decide) (by decide)
  exact ⟨h.1, h.2 (some (ActiveSession.mk "mcqs_sample.json" 0 [] 0 true)) "A" true "A"
    (submit_answer exLoad (some (ActiveSession.mk "mcqs_sample.json" 0 [] 0 true)) "A").2
    (by decide)⟩

/-- C6: calling submit_answer with no active quiz or with the cursor at or past
the number of questions signals an error and leaves the session unchanged, and
reading the current question in those states redirects away (out of range)
rather than rendering a question; the question route performs no session
writes. -/
theorem c6_failed_calls_noop (load : LoadEnv) (s : Session) (ua : String)
    (h : s = none ∨ ∃ a data, s = some a ∧ load a.quiz_filename = some data ∧
      data.questions.length ≤ a.current_question) :
    (submit_answer load s ua).2 = s ∧
    ((submit_answer load s ua).1 = .errorNoActiveQuiz ∨
     (submit_answer load s ua).1 = .errorQuizCompleted) ∧
    (question load s = .redirectIndex ∨ question load s = .redirectResults) := by
  rcases h with rfl | ⟨a, data, rfl, hload, hge⟩
  · exact ⟨rfl, Or.inl rfl, Or.inl rfl⟩
  · have hnlt : ¬ a.current_question < data.questions.length := by omega
    refine ⟨?_, Or.inr ?_, Or.inr ?_⟩
    · simp only [submit_answer, hload]
      rw [dif_neg hnlt]
    · simp only [submit_answer, hload]
      rw [dif_neg hnlt]
    · simp only [question, hload]
      rw [dif_neg hnlt]

/-- Witness for C6: with no active session the submit call errors and is a
no-op, and the question route redirects to the index. -/
theorem c6_failed_calls_noop_witness :
    (submit_answer exLoad none "A").2 = none ∧
    ((submit_answer exLoad none "A").1 = .errorNoActiveQuiz ∨
     (submit_answer exLoad none "A").1 = .errorQuizCompleted) ∧
    (question exLoad none = .redirectIndex ∨
     question exLoad none = .redirectResults) :=
  c6_failed_calls_noop exLoad none "A" (Or.inl rfl)

/-- C9: the results view derives the percentage as score divided by the number
of questions in the batch, times 100, and the percentage is 0 when the total
is 0. -/
theorem c9_percentage (load : LoadEnv) (s : Session) (a : ActiveSession)
    (data : QuizData)
    (hs : s = some a) (hload : load a.quiz_filename = some data) :
    ∃ v, results load s = .view v ∧
      v.total = data.questions.length ∧
      v.score = a.score ∧
      v.percentage = if 0 < data.questions.length
        then (a.score : ℚ) / (data.questions.length : ℚ) * 100 else 0 := by
  subst hs
  refine ⟨⟨data.query, a.score, data.questions.length,
    if 0 < data.questions.length
      then (a.score : ℚ) / (data.questions.length : ℚ) * 100 else 0,
    data.questions.enum.filterMap (fun p =>
      match dictFind a.answers (strKey p.1) with
      | some ans => some (p.2, ans)
      | none => none)⟩, ?_, rfl, rfl, rfl⟩
  simp only [results, hload]

/-- Witness for C9: a finished concrete session with score 2 over 3 questions
gets the formula percentage. -/
theorem c9_percentage_witness :
    ∃ v, results exLoad (some (ActiveSession.mk "mcqs_sample.json" 3
        [("0", ⟨"A", "A", true⟩), ("1", ⟨"X", "B", false⟩), ("2", ⟨"C", "C", true⟩)]
        2 true)) = .view v ∧
      v.total = exData.questions.length ∧
      v.score = (ActiveSession.mk "mcqs_sample.json" 3
        [("0", ⟨"A", "A", true⟩), ("1", ⟨"X", "B", false⟩), ("2", ⟨"C", "C", true⟩)]
        2 true).score ∧
      v.percentage = if 0 < exData.questions.length
        then (((ActiveSession.mk "mcqs_sample.json" 3
          [("0", ⟨"A", "A", true⟩), ("1", ⟨"X", "B", false⟩), ("2", ⟨"C", "C", true⟩)]
          2 true).score : ℚ) / (exData.questions.length : ℚ)) * 100 else 0 :=
  c9_percentage exLoad _ (ActiveSession.mk "mcqs_sample.json" 3
    [("0", ⟨"A", "A", true⟩), ("1", ⟨"X", "B", false⟩), ("2", ⟨"C", "C", true⟩)]
    2 true) exData rfl (by decide)

/-! ### Reachable-state invariant for the answers dictionary -/

lemma exec_answersInv (load : LoadEnv) (s : Session) (op : Op)
    (h : answersInv s = true) : answersInv (exec load s op) = true := by
  cases op with
  | start fn =>
    simp only [exec, start_quiz]
    cases load fn with
    | none => exact h
    | some d => rfl
  | submit ua =>
    cases s with
    | none => rfl
    | some a =>
      cases hl : load a.quiz_filename with
      | none =>
        simp only [exec, submit_answer, hl]
        exact h
      | some d =>
        by_cases hlt : a.current_question < d.questions.length
        · have hstep := submit_answer_step load a d hl hlt ua
          have hInv := (answersInv_some_iff a).mp h
          simp only [exec, hstep]
          rw [answersInv_some_iff]
          show (dictInsert a.answers (strKey a.current_question)
              ⟨ua, (d.questions.get ⟨a.current_question, hlt⟩).correct_answer,
               ua == (d.questions.get ⟨a.current_question, hlt⟩).correct_answer⟩).map
              Prod.fst =
            (List.range (a.current_question + 1)).map strKey
          rw [dictInsert_eq_append hInv, List.map_append, hInv, List.range_succ,
            List.map_append]
          rfl
        · simp only [exec, submit_answer, hl]
          rw [dif_neg hlt]
          exact h
  | viewQuestion => exact h
  | viewResults => exact h
  | viewProgress => exact h
  | reset => rfl

lemma run_answersInv (load : LoadEnv) (ops : List Op) :
    ∀ s : Session, answersInv s = true → answersInv (run load ops s) = true := by
  induction ops with
  | nil => intro s h; exact h
  | cons op ops' ih =>
    intro s h
    rw [run, List.foldl_cons]
    exact ih (exec load s op) (exec_answersInv load s op h)

/-- C10: in every session state reachable by a sequence of requests, the keys
of the answers dictionary are exactly the string forms of 0 .. cursor-1, in
order; and a further request either clears the dictionary (start/reset), leaves
it untouched, or appends exactly one entry keyed by the current cursor — an
existing entry is never rewritten. -/
theorem c10_answers_keys (load : LoadEnv) (ops : List Op) (op : Op) :
    answersInv (run load ops none) = true ∧
    (∀ a a', run load ops none = some a → exec load (some a) op = some a' →
      a'.answers = [] ∨ a'.answers = a.answers ∨
      ∃ v, a'.answers = a.answers ++ [(strKey a.current_question, v)]) := by
  have hInv := run_answersInv load ops none rfl
  refine ⟨hInv, ?_⟩
  intro a a' hrun hexec
  rw [hrun] at hInv
  have hInv' := (answersInv_some_iff a).mp hInv
  cases op with
  | start fn =>
    simp only [exec, start_quiz] at hexec
    cases hl : load fn with
    | none =>
      rw [hl] at hexec
      right; left
      rw [← Option.some.inj hexec]
    | some d =>
      rw [hl] at hexec
      left
      rw [← Option.some.inj hexec]
  | submit ua =>
    cases hl : load a.quiz_filename with
    | none =>
      simp only [exec, submit_answer, hl] at hexec
      right; left
      rw [← Option.some.inj hexec]
    | some d =>
      by_cases hlt : a.current_question < d.questions.length
      · have hstep := submit_answer_step load a d hl hlt ua
        simp only [exec, hstep] at hexec
        right; right
        refine ⟨⟨ua, (d.questions.get ⟨a.current_question, hlt⟩).correct_answer,
          ua == (d.questions.get ⟨a.current_question, hlt⟩).correct_answer⟩, ?_⟩
        rw [← Option.some.inj hexec]
        exact dictInsert_eq_append hInv' _
      · simp only [exec, submit_answer, hl] at hexec
        rw [dif_neg hlt] at hexec
        right; left
        rw [← Option.some.inj hexec]
  | viewQuestion =>
    right; left
    rw [← Option.some.inj hexec]
  | viewResults =>
    right; left
    rw [← Option.some.inj hexec]
  | viewProgress =>
    right; left
    rw [← Option.some.inj hexec]
  | reset => simp [exec, reset_quiz] at hexec

/-- Witness for C10: after starting the sample quiz and answering once, the
answers keys are exactly str(0); one more accepted submission appends exactly
the entry keyed str(1). -/
theorem c10_answers_keys_witness :
    answersInv (run exLoad [Op.start "mcqs_sample.json", Op.submit "A"] none) = true ∧
    ((ActiveSession.mk "mcqs_sample.json" 2
        [("0", ⟨"A", "A", true⟩), ("1", ⟨"B", "B", true⟩)] 2 true).answers = [] ∨
     (ActiveSession.mk "mcqs_sample.json" 2
        [("0", ⟨"A", "A", true⟩), ("1", ⟨"B", "B", true⟩)] 2 true).answers =
       (ActiveSession.mk "mcqs_sample.json" 1 [("0", ⟨"A", "A", true⟩)] 1 true).answers ∨
     ∃ v, (ActiveSession.mk "mcqs_sample.json" 2
        [("0", ⟨"A", "A", true⟩), ("1", ⟨"B", "B", true⟩)] 2 true).answers =
       (ActiveSession.mk "mcqs_sample.json" 1 [("0", ⟨"A", "A", true⟩)] 1 true).answers ++
         [(strKey (ActiveSession.mk "mcqs_sample.json" 1
           [("0", ⟨"A", "A", true⟩)] 1 true).current_question, v)]) :=
  ⟨(c10_answers_keys exLoad [Op.start "mcqs_sample.json", Op.submit "A"]
      (Op.submit "B")).1,
   (c10_answers_keys exLoad [Op.start "mcqs_sample.json", Op.submit "A"]
      (Op.submit "B")).2
     (ActiveSession.mk "mcqs_sample.json" 1 [("0", ⟨"A", "A", true⟩)] 1 true)
     (ActiveSession.mk "mcqs_sample.json" 2
       [("0", ⟨"A", "A", true⟩), ("1", ⟨"B", "B", true⟩)] 2 true)
     (by decide) (by decide)⟩

end QuizSmith
